import Mathlib

/-!
Verification of the rostermangler roster/family-grouping program.

The program (rostermangler.py) is shallowly embedded here: Python strings
become `String`, Python string truthiness becomes the test against `""`
(the program only ever stores `None` in fields where it also stores `""`,
and both are falsy, so one empty value suffices), Python ints become `Int`,
raising code returns `Except RMError`, and mutation becomes explicit state
passing.  Python string primitives (`lower`, `startswith`, `endswith`,
`split`, lexicographic comparison, `int()`) are re-implemented over the
character list of a `String` so that every definition evaluates inside the
kernel.  Only ASCII text appears in the repository's data and in the claims,
so the ASCII-only `lowerChar` is a faithful model of `str.lower`.
-/

namespace RosterMangler

/-! ## Python string primitives -/

/-- Python `str` truthiness: a string is truthy iff non-empty. -/
def pyTruthy (s : String) : Bool := s != ""

/-- ASCII lower-casing of one character, as CPython does for ASCII text. -/
def lowerChar (c : Char) : Char :=
  if c.toNat ≥ 65 ∧ c.toNat ≤ 90 then Char.ofNat (c.toNat + 32) else c

/-- Python `str.lower` (ASCII fragment). -/
def pyLower (s : String) : String := ⟨s.data.map lowerChar⟩

/-- Python `a.startswith(b)`. -/
def pyStartsWith (s p : String) : Bool := p.data.isPrefixOf s.data

/-- Python `a.endswith(b)`. -/
def pyEndsWith (s p : String) : Bool := p.data.isSuffixOf s.data

/-- Helper for `pySplitCommaSpace`: split a character list on the
two-character separator `", "`, leftmost-first, non-overlapping, with the
accumulator holding the current chunk reversed. -/
def splitCS : List Char → List Char → List (List Char)
  | [], acc => [acc.reverse]
  | [c], acc => [(c :: acc).reverse]
  | c1 :: c2 :: cs, acc =>
    if c1 = ',' ∧ c2 = ' ' then acc.reverse :: splitCS cs []
    else splitCS (c2 :: cs) (c1 :: acc)

/-- Python `s.split(', ')`. -/
def pySplitCommaSpace (s : String) : List String :=
  (splitCS s.data []).map String.mk

/-- Python `s.split(',')[0]`: the characters before the first comma. -/
def pySplitCommaHead (s : String) : String := ⟨s.data.takeWhile (· ≠ ',')⟩

/-- Python `int(s)` for a decimal string: optional surrounding spaces,
optional sign, at least one digit; `none` models the `ValueError`. -/
def pyInt (s : String) : Option Int :=
  let t := ((s.data.dropWhile (· = ' ')).reverse.dropWhile (· = ' ')).reverse
  let signDigits : Int × List Char :=
    match t with
    | '-' :: rest => (-1, rest)
    | '+' :: rest => (1, rest)
    | _ => (1, t)
  if signDigits.2 ≠ [] ∧ signDigits.2.all (·.isDigit) then
    some (signDigits.1 *
      (signDigits.2.foldl (fun n c => n * 10 + (c.toNat - 48)) 0 : Nat))
  else none

/-- Python `sep.join(parts)`. -/
def pyJoin (sep : String) : List String → String
  | [] => ""
  | [s] => s
  | s :: rest => s ++ sep ++ pyJoin sep rest

/-! ## Python string ordering (lexicographic on code points) -/

/-- Strict lexicographic order on character lists by code point:
Python `<` on strings. -/
def listLt : List Char → List Char → Bool
  | [], [] => false
  | [], _ :: _ => true
  | _ :: _, [] => false
  | a :: as, b :: bs =>
    if a.toNat < b.toNat then true
    else if b.toNat < a.toNat then false
    else listLt as bs

/-- Non-strict lexicographic order on character lists by code point:
Python `<=` on strings. -/
def listLe : List Char → List Char → Bool
  | [], _ => true
  | _ :: _, [] => false
  | a :: as, b :: bs =>
    if a.toNat < b.toNat then true
    else if b.toNat < a.toNat then false
    else listLe as bs

/-- Python `<=` on strings. -/
def strLe (a b : String) : Bool := listLe a.data b.data

theorem charToNat_inj {a b : Char} (h : a.toNat = b.toNat) : a = b := by
  have ha := Char.ofNat_toNat a
  rw [h, Char.ofNat_toNat b] at ha
  exact ha.symm

theorem listLe_refl (a : List Char) : listLe a a = true := by
  induction a with
  | nil => rfl
  | cons c cs ih => simp [listLe, ih]

theorem listLe_total (a b : List Char) : listLe a b = true ∨ listLe b a = true := by
  induction a generalizing b with
  | nil => left; rfl
  | cons c cs ih =>
    cases b with
    | nil => right; rfl
    | cons d ds =>
      rcases Nat.lt_trichotomy c.toNat d.toNat with h | h | h
      · left; simp [listLe, h]
      · rcases ih ds with h2 | h2
        · left; simp [listLe, h, h2]
        · right; simp [listLe, h.symm, h2]
      · right; simp [listLe, h]

theorem listLe_trans {a b c : List Char} (h1 : listLe a b = true)
    (h2 : listLe b c = true) : listLe a c = true := by
  induction a generalizing b c with
  | nil => rfl
  | cons x xs ih =>
    cases b with
    | nil => simp [listLe] at h1
    | cons y ys =>
      cases c with
      | nil => simp [listLe] at h2
      | cons z zs =>
        simp only [listLe] at h1 h2 ⊢
        by_cases hxy : x.toNat < y.toNat
        · simp [hxy] at h1
          by_cases hyz : y.toNat < z.toNat
          · simp [Nat.lt_trans hxy hyz]
          · by_cases hzy : z.toNat < y.toNat
            · simp [hyz, hzy] at h2
            · have : y.toNat = z.toNat := Nat.le_antisymm (Nat.le_of_not_lt hzy) (Nat.le_of_not_lt hyz)
              simp [this ▸ hxy]
        · by_cases hyx : y.toNat < x.toNat
          · simp [hxy, hyx] at h1
          · have hxyeq : x.toNat = y.toNat := Nat.le_antisymm (Nat.le_of_not_lt hyx) (Nat.le_of_not_lt hxy)
            simp [hxy, hyx] at h1
            by_cases hyz : y.toNat < z.toNat
            · simp [hxyeq ▸ hyz]
            · by_cases hzy : z.toNat < y.toNat
              · simp [hyz, hzy] at h2
              · simp [hyz, hzy] at h2
                have hxz : ¬ x.toNat < z.toNat := fun hc => hyz (hxyeq ▸ hc)
                have hzx : ¬ z.toNat < x.toNat := fun hc => hzy (hxyeq ▸ hc)
                simp [hxz, hzx, ih h1 h2]

theorem listLe_antisymm {a b : List Char} (h1 : listLe a b = true)
    (h2 : listLe b a = true) : a = b := by
  induction a generalizing b with
  | nil =>
    cases b with
    | nil => rfl
    | cons d ds => simp [listLe] at h2
  | cons c cs ih =>
    cases b with
    | nil => simp [listLe] at h1
    | cons d ds =>
      simp only [listLe] at h1 h2
      by_cases hcd : c.toNat < d.toNat
      · simp [hcd, Nat.lt_asymm hcd, Nat.ne_of_lt hcd] at h2
      · by_cases hdc : d.toNat < c.toNat
        · simp [hcd, hdc] at h1
        · have hceq : c.toNat = d.toNat := Nat.le_antisymm (Nat.le_of_not_lt hdc) (Nat.le_of_not_lt hcd)
          simp [hcd, hdc] at h1 h2
          rw [charToNat_inj hceq, ih h1 h2]

theorem strLe_refl (a : String) : strLe a a = true := listLe_refl a.data

theorem strLe_total (a b : String) : strLe a b = true ∨ strLe b a = true :=
  listLe_total a.data b.data

theorem strLe_trans {a b c : String} (h1 : strLe a b = true)
    (h2 : strLe b c = true) : strLe a c = true := listLe_trans h1 h2

theorem strLe_antisymm {a b : String} (h1 : strLe a b = true)
    (h2 : strLe b a = true) : a = b := by
  cases a
  cases b
  exact congrArg String.mk (listLe_antisymm h1 h2)

/-! ## Stable insertion sort, modelling Python `list.sort` -/

/-- Insert into a sorted list, keeping the new element after nothing it is
`le`-before; with a total `le` this is the step of a stable insertion sort. -/
def insertSorted (le : α → α → Bool) (x : α) : List α → List α
  | [] => [x]
  | y :: ys => if le x y then x :: y :: ys else y :: insertSorted le x ys

/-- Stable sort by the boolean relation `le`; with `le` a total preorder this
computes the same list as Python's stable `list.sort`. -/
def sortBy (le : α → α → Bool) : List α → List α
  | [] => []
  | x :: xs => insertSorted le x (sortBy le xs)

theorem mem_insertSorted (le : α → α → Bool) (x : α) (l : List α) (z : α) :
    z ∈ insertSorted le x l ↔ z = x ∨ z ∈ l := by
  induction l with
  | nil => simp [insertSorted]
  | cons y ys ih =>
    simp only [insertSorted]
    by_cases h : le x y = true
    · simp [h]
    · simp [h, ih]
      tauto

theorem mem_sortBy (le : α → α → Bool) (l : List α) (z : α) :
    z ∈ sortBy le l ↔ z ∈ l := by
  induction l with
  | nil => simp [sortBy]
  | cons x xs ih => simp [sortBy, mem_insertSorted, ih]

theorem pairwise_insertSorted (le : α → α → Bool)
    (htot : ∀ a b, le a b = true ∨ le b a = true)
    (htrans : ∀ a b c, le a b = true → le b c = true → le a c = true)
    (x : α) (l : List α) (hl : l.Pairwise (fun a b => le a b = true)) :
    (insertSorted le x l).Pairwise (fun a b => le a b = true) := by
  induction l with
  | nil => simp [insertSorted]
  | cons y ys ih =>
    rcases List.pairwise_cons.mp hl with ⟨hy, hys⟩
    simp only [insertSorted]
    by_cases h : le x y = true
    · rw [if_pos h]
      refine List.pairwise_cons.mpr ⟨?_, hl⟩
      intro z hz
      rcases List.mem_cons.mp hz with rfl | hz
      · exact h
      · exact htrans x y z h (hy z hz)
    · rw [if_neg h]
      refine List.pairwise_cons.mpr ⟨?_, ih hys⟩
      intro z hz
      rcases (mem_insertSorted le x ys z).mp hz with hz' | hz'
      · rcases htot x y with h' | h'
        · exact absurd h' h
        · exact hz'.symm ▸ h'
      · exact hy z hz'

theorem pairwise_sortBy (le : α → α → Bool)
    (htot : ∀ a b, le a b = true ∨ le b a = true)
    (htrans : ∀ a b c, le a b = true → le b c = true → le a c = true)
    (l : List α) : (sortBy le l).Pairwise (fun a b => le a b = true) := by
  induction l with
  | nil => simp [sortBy]
  | cons x xs ih => exact pairwise_insertSorted le htot htrans x (sortBy le xs) ih

/-- On a `le`-sorted list, `find?` returns a satisfying element that is
`le` every satisfying element. -/
theorem find?_sorted_min (le : α → α → Bool) (p : α → Bool)
    (hrefl : ∀ a, le a a = true)
    (l : List α) (hl : l.Pairwise (fun a b => le a b = true))
    (a : α) (h : l.find? p = some a) :
    p a = true ∧ ∀ b ∈ l, p b = true → le a b = true := by
  induction l with
  | nil => simp [List.find?] at h
  | cons x xs ih =>
    rcases List.pairwise_cons.mp hl with ⟨hx, hxs⟩
    by_cases hp : p x = true
    · rw [List.find?_cons_of_pos _ hp] at h
      cases h
      refine ⟨hp, ?_⟩
      intro b hb _
      rcases List.mem_cons.mp hb with rfl | hb
      · exact hrefl b
      · exact hx b hb
    · rw [List.find?_cons_of_neg _ (by simpa using hp)] at h
      rcases ih hxs h with ⟨hpa, hmin⟩
      refine ⟨hpa, ?_⟩
      intro b hb hpb
      rcases List.mem_cons.mp hb with rfl | hb
      · exact absurd hpb hp
      · exact hmin b hb hpb

/-! ## Errors raised by the program -/

/-- The exceptions rostermangler.py can raise in the modelled core:
the two `ValueError`s of `Person._update_attr` / `Person.update`
(field conflict, identity mismatch), `IndexError` from list indexing,
and `ValueError` from `int()` or tuple unpacking of `str.split`. -/
inductive RMError where
  | fieldConflict (field thisVal otherVal : String)
  | identityMismatch (thisName otherName : String)
  | indexError
  | valueError (what : String)
deriving Repr, DecidableEq

/-! ## Person (rostermangler.py lines 13-92) -/

/-- `Person.__init__`'s attributes.  Optional fields default to `None` in
Python and are otherwise strings; both `None` and `""` are falsy and the
program only ever tests truthiness or equality on them, so the empty string
models the absent value. -/
structure Person where
  first_name : String
  last_name : String
  phone : String
  email : String
  age : Int
  nickname : String
  role : String
  address : String
  city : String
deriving Repr, DecidableEq

/-- `Person(first_name, last_name, phone, email, age, nickname, role,
address, city)`: the constructor lower-cases the email. -/
def mkPerson (first_name last_name phone email : String) (age : Int)
    (nickname role address city : String) : Person :=
  ⟨first_name, last_name, phone, pyLower email, age, nickname, role, address, city⟩

/-- `Person(last_name_first_name=..., ...)`: the constructor splits the
combined `"Last, First"` name on `", "`; the tuple unpacking raises
`ValueError` unless the split has exactly two parts. -/
def mkPersonFromLastFirst (lnfn phone email : String) (age : Int)
    (nickname role address city : String) : Except RMError Person :=
  match pySplitCommaSpace lnfn with
  | [ln, fn] => .ok (mkPerson fn ln phone email age nickname role address city)
  | _ => .error (.valueError "name unpack")

/-- `Person.__eq__`: identity solely by case-insensitive first and last name. -/
def personEq (a b : Person) : Bool :=
  pyLower a.first_name == pyLower b.first_name &&
    pyLower a.last_name == pyLower b.last_name

/-- `Person.valid`: both names non-empty. -/
def Person.valid (p : Person) : Bool :=
  pyTruthy p.first_name && pyTruthy p.last_name

/-- The `resolve` argument of `Person._update_attr`: `None`, `"concat"`
or `"replace"`. -/
inductive Resolve where
  | fail
  | concat
  | replace
deriving Repr, DecidableEq

/-- `Person._update_attr` on one field's values: when both sides are truthy
and different, concatenate / replace / raise according to `resolve`;
otherwise the field is assigned the other side's value. -/
def updateAttr (thisVal otherVal field : String) (resolve : Resolve) :
    Except RMError String :=
  if pyTruthy thisVal ∧ pyTruthy otherVal ∧ thisVal ≠ otherVal then
    match resolve with
    | .concat => .ok (thisVal ++ ", " ++ otherVal)
    | .replace => .ok otherVal
    | .fail => .error (.fieldConflict field thisVal otherVal)
  else .ok otherVal

/-- `Person.update`: refuse a non-identity match, then update phone, email,
nickname, role, address and city in order (age is untouched). -/
def Person.update (self other : Person) : Except RMError Person :=
  if personEq self other = false then
    .error (.identityMismatch (self.first_name ++ " " ++ self.last_name)
      (other.first_name ++ " " ++ other.last_name))
  else
    match updateAttr self.phone other.phone "phone" .fail with
    | .error e => .error e
    | .ok ph =>
      match updateAttr self.email other.email "email" .replace with
      | .error e => .error e
      | .ok em =>
        match updateAttr self.nickname other.nickname "nickname" .fail with
        | .error e => .error e
        | .ok ni =>
          match updateAttr self.role other.role "role" .concat with
          | .error e => .error e
          | .ok ro =>
            match updateAttr self.address other.address "address" .fail with
            | .error e => .error e
            | .ok ad =>
              match updateAttr self.city other.city "city" .fail with
              | .error e => .error e
              | .ok ci =>
                .ok ⟨self.first_name, self.last_name, ph, em, self.age,
                  ni, ro, ad, ci⟩

/-- A successful `Person.update` never changes the receiver's names or age. -/
theorem update_ok_names {a b p : Person} (h : a.update b = .ok p) :
    p.first_name = a.first_name ∧ p.last_name = a.last_name ∧ p.age = a.age := by
  unfold Person.update at h
  split at h
  · exact absurd h (by simp)
  · split at h
    · exact absurd h (by simp)
    · split at h
      · exact absurd h (by simp)
      · split at h
        · exact absurd h (by simp)
        · split at h
          · exact absurd h (by simp)
          · split at h
            · exact absurd h (by simp)
            · split at h
              · exact absurd h (by simp)
              · cases h
                exact ⟨rfl, rfl, rfl⟩

/-! ## Ordering of persons by the sort key `(last_name, first_name)` -/

/-- Python `<` on strings. -/
def strLt (a b : String) : Bool := listLt a.data b.data

theorem strData_eq {a b : String} (h : a.data = b.data) : a = b := by
  cases a
  cases b
  exact congrArg String.mk h

theorem listLt_connex (a b : List Char) :
    listLt a b = true ∨ a = b ∨ listLt b a = true := by
  induction a generalizing b with
  | nil =>
    cases b with
    | nil => right; left; rfl
    | cons d ds => left; rfl
  | cons c cs ih =>
    cases b with
    | nil => right; right; rfl
    | cons d ds =>
      rcases Nat.lt_trichotomy c.toNat d.toNat with h | h | h
      · left; simp [listLt, h]
      · rcases ih ds with h2 | h2 | h2
        · left; simp [listLt, h, h2]
        · right; left; rw [charToNat_inj h, h2]
        · right; right; simp [listLt, h.symm, h2]
      · right; right; simp [listLt, h]

theorem listLt_trans {a b c : List Char} (h1 : listLt a b = true)
    (h2 : listLt b c = true) : listLt a c = true := by
  induction a generalizing b c with
  | nil =>
    cases b with
    | nil => simp [listLt] at h1
    | cons y ys =>
      cases c with
      | nil => simp [listLt] at h2
      | cons z zs => rfl
  | cons x xs ih =>
    cases b with
    | nil => simp [listLt] at h1
    | cons y ys =>
      cases c with
      | nil => simp [listLt] at h2
      | cons z zs =>
        simp only [listLt] at h1 h2 ⊢
        by_cases hxy : x.toNat < y.toNat
        · by_cases hyz : y.toNat < z.toNat
          · simp [Nat.lt_trans hxy hyz]
          · by_cases hzy : z.toNat < y.toNat
            · simp [hyz, hzy] at h2
            · have : y.toNat = z.toNat :=
                Nat.le_antisymm (Nat.le_of_not_lt hzy) (Nat.le_of_not_lt hyz)
              simp [this ▸ hxy]
        · by_cases hyx : y.toNat < x.toNat
          · simp [hxy, hyx] at h1
          · have hxyeq : x.toNat = y.toNat :=
              Nat.le_antisymm (Nat.le_of_not_lt hyx) (Nat.le_of_not_lt hxy)
            simp [hxy, hyx] at h1
            by_cases hyz : y.toNat < z.toNat
            · simp [hxyeq ▸ hyz]
            · by_cases hzy : z.toNat < y.toNat
              · simp [hyz, hzy] at h2
              · simp [hyz, hzy] at h2
                have hxz : ¬ x.toNat < z.toNat := fun hc => hyz (hxyeq ▸ hc)
                have hzx : ¬ z.toNat < x.toNat := fun hc => hzy (hxyeq ▸ hc)
                simp [hxz, hzx, ih h1 h2]

/-- The sort key of Python's `fam.sort`: `(last_name, first_name)`. -/
def nameKey (p : Person) : String × String := (p.last_name, p.first_name)

/-- Python `<=` on `(last_name, first_name)` key tuples. -/
def keyLe (x y : String × String) : Bool :=
  if strLt x.1 y.1 then true
  else if x.1 == y.1 then strLe x.2 y.2
  else false

/-- The comparison Python's `fam.sort` performs: lexicographic on
`(last_name, first_name)`. -/
def personLe (p q : Person) : Bool := keyLe (nameKey p) (nameKey q)

theorem keyLe_total (x y : String × String) :
    keyLe x y = true ∨ keyLe y x = true := by
  unfold keyLe
  rcases listLt_connex x.1.data y.1.data with h | h | h
  · left; simp [strLt, h]
  · have heq : x.1 = y.1 := strData_eq h
    rcases strLe_total x.2 y.2 with h2 | h2
    · left
      by_cases hlt : strLt x.1 y.1 = true
      · simp [hlt]
      · simp [hlt, heq, h2]
    · right
      by_cases hlt : strLt y.1 x.1 = true
      · simp [hlt]
      · simp [hlt, heq, h2]
  · right; simp [strLt, h]

theorem keyLe_trans {x y z : String × String} (h1 : keyLe x y = true)
    (h2 : keyLe y z = true) : keyLe x z = true := by
  unfold keyLe at h1 h2 ⊢
  by_cases hxy : strLt x.1 y.1 = true
  · by_cases hyz : strLt y.1 z.1 = true
    · simp only [strLt] at hxy hyz ⊢
      simp [listLt_trans hxy hyz]
    · simp [hyz] at h2
      rw [← h2.1]
      simp [hxy]
  · simp [hxy] at h1
    by_cases hyz : strLt y.1 z.1 = true
    · rw [h1.1]
      simp [hyz]
    · simp [hyz] at h2
      have hfst : x.1 = z.1 := h1.1.trans h2.1
      by_cases hxz : strLt x.1 z.1 = true
      · simp [hxz]
      · simp [hxz, hfst, strLe_trans h1.2 h2.2]

theorem personLe_total (p q : Person) :
    personLe p q = true ∨ personLe q p = true :=
  keyLe_total (nameKey p) (nameKey q)

theorem personLe_trans {p q r : Person} (h1 : personLe p q = true)
    (h2 : personLe q r = true) : personLe p r = true :=
  keyLe_trans h1 h2

/-! ## Family (rostermangler.py lines 94-188) -/

/-- `Family`: ordered parent and child lists. -/
structure Family where
  parents : List Person
  children : List Person
deriving Repr, DecidableEq

/-- `Family.__init__`: keep only valid persons. -/
def mkFamily (parents children : List Person) : Family :=
  ⟨parents.filter Person.valid, children.filter Person.valid⟩

/-- The set of last names across all members, as the sorted duplicate-free
list Python's `sorted(list(set))` view of it produces. -/
def Family.lastNamesSorted (f : Family) : List String :=
  sortBy strLe (((f.parents ++ f.children).map Person.last_name).dedup)

/-- The inner loop of `Family.family_name`: does some *other* name of the
set occur in `a` as a prefix or suffix? -/
def hasContained (names : List String) (a : String) : Bool :=
  names.any (fun b => a != b && (pyStartsWith a b || pyEndsWith a b))

/-- `Family.family_name`: scan the sorted last names and return the first
one that has another name of the set as prefix or suffix; if none, join all
sorted names with `" and "`.  Either way `" family"` is appended. -/
def Family.family_name (f : Family) : String :=
  match f.lastNamesSorted.find? (hasContained f.lastNamesSorted) with
  | some a => a ++ " family"
  | none => pyJoin " and " f.lastNamesSorted ++ " family"

/-- The claim's reading of `family_name` (C4): scan ordered pairs `(a, b)`
of distinct sorted names, outer `a`, inner `b`, and at the first pair where
`a` is a prefix or suffix of `b` return the *second* name `b`. -/
def Family.family_name_claim (f : Family) : String :=
  match f.lastNamesSorted.findSome?
      (fun a => f.lastNamesSorted.find?
        (fun b => a != b && (pyStartsWith b a || pyEndsWith b a))) with
  | some b => b ++ " family"
  | none => pyJoin " and " f.lastNamesSorted ++ " family"

/-- First-occurrence deduplication: the iteration order of the keys of a
Python `collections.Counter` built from a list. -/
def dedupFirst : List String → List String
  | [] => []
  | x :: xs => x :: (dedupFirst xs).filter (fun y => y != x)

/-- `collections.Counter(l)` as an association list in first-occurrence
order. -/
def counterItems (l : List String) : List (String × Nat) :=
  (dedupFirst l).map (fun v => (v, l.count v))

/-- Sort-key for `Counter.most_common`: descending count, stable. -/
def countGe (x y : String × Nat) : Bool := y.2 ≤ x.2

/-- `Counter(l).most_common(2)`: the two most frequent values, descending
count, ties in first-occurrence order. -/
def mostCommon2 (l : List String) : List (String × Nat) :=
  (sortBy countGe (counterItems l)).take 2

/-- The shared body of `Family.family_phone` and `Family.family_email`:
`[v for v, count in Counter(vals).most_common(2) if count > 1 and v]`. -/
def commonTwo (vals : List String) : List String :=
  (mostCommon2 vals).filterMap
    (fun vc => if 1 < vc.2 ∧ vc.1 ≠ "" then some vc.1 else none)

/-- `Family.family_phone`. -/
def Family.family_phone (f : Family) : List String :=
  commonTwo ((f.parents ++ f.children).map Person.phone)

/-- `Family.family_email`. -/
def Family.family_email (f : Family) : List String :=
  commonTwo ((f.parents ++ f.children).map Person.email)

/-- The claim's reading (C5): all non-empty values occurring more than once,
ordered by descending count with first-occurrence tie-break, then capped at
two — i.e. filter first, truncate after. -/
def commonTwoClaim (vals : List String) : List String :=
  (((sortBy countGe (counterItems vals)).filter
    (fun vc => decide (1 < vc.2 ∧ vc.1 ≠ ""))).map Prod.fst).take 2

/-- `Family.family_phone` as claim C5 states it. -/
def Family.family_phone_claim (f : Family) : List String :=
  commonTwoClaim ((f.parents ++ f.children).map Person.phone)

/-- The shape of `Family.family_address`'s result: a (address, city) pair
when the family has children, a 1-tuple (city,) when it only has parents. -/
inductive FamilyAddress where
  | pair (address city : String)
  | single (city : String)
deriving Repr, DecidableEq

/-- `Family.family_address`; `none` models the `IndexError` of
`self.parents[0]` on a family with neither children nor parents. -/
def Family.family_address (f : Family) : Option FamilyAddress :=
  match f.children with
  | c :: _ => some (.pair c.address c.city)
  | [] =>
    match f.parents with
    | p :: _ => some (.single p.city)
    | [] => none

/-- `Family.sort()` with the default key `(last_name, first_name)`. -/
def Family.sortFam (f : Family) : Family :=
  ⟨sortBy personLe f.parents, sortBy personLe f.children⟩

/-- `Family._add_person`'s loop over an existing group: update the first
identity match in place, or append at the end. -/
def addToGroup (newP : Person) : List Person → Except RMError (List Person)
  | [] => .ok [newP]
  | p :: ps =>
    if personEq newP p then
      match p.update newP with
      | .error e => .error e
      | .ok p2 => .ok (p2 :: ps)
    else
      match addToGroup newP ps with
      | .error e => .error e
      | .ok ps2 => .ok (p :: ps2)

/-- `Family._add_person`: do nothing for an invalid person. -/
def addPerson (group : List Person) (newP : Person) : Except RMError (List Person) :=
  if newP.valid then addToGroup newP group else .ok group

/-- `Family.add_or_update_parent`. -/
def Family.add_or_update_parent (f : Family) (p : Person) : Except RMError Family :=
  match addPerson f.parents p with
  | .error e => .error e
  | .ok ps => .ok ⟨ps, f.children⟩

/-- `Family.add_or_update_child`. -/
def Family.add_or_update_child (f : Family) (c : Person) : Except RMError Family :=
  match addPerson f.children c with
  | .error e => .error e
  | .ok cs => .ok ⟨f.parents, cs⟩

/-- `Family.has_parent`: exact, case-sensitive comparison of both names. -/
def Family.has_parent (f : Family) (first_name last_name : String) : Bool :=
  f.parents.any (fun p => p.last_name == last_name && p.first_name == first_name)

/-- `Family.has_parent` as claim C3 reads it: case-insensitive identity
match, i.e. `Person.__eq__`. -/
def Family.has_parent_ci (f : Family) (first_name last_name : String) : Bool :=
  f.parents.any (fun p => pyLower p.last_name == pyLower last_name &&
    pyLower p.first_name == pyLower first_name)

/-! ## The family builder (rostermangler.py lines 191-240)

The spreadsheet decoding (`pyexcel_ods`) is the external collaborator: the
builder is modelled on the sheets it produces, each a list of rows of cell
strings. -/

/-- The inner `for family in families` loop of `get_members_as_families`:
merge the triple into the first family one of whose parents `has_parent`-
matches parent1 or parent2; `none` when no family matches. -/
def scanFamilies (member p1 p2 : Person) :
    List Family → Except RMError (Option (List Family))
  | [] => .ok none
  | f :: fs =>
    if f.has_parent p1.first_name p1.last_name ||
        f.has_parent p2.first_name p2.last_name then
      match f.add_or_update_child member with
      | .error e => .error e
      | .ok f1 =>
        match f1.add_or_update_parent p1 with
        | .error e => .error e
        | .ok f2 =>
          match f2.add_or_update_parent p2 with
          | .error e => .error e
          | .ok f3 => .ok (some (f3 :: fs))
    else
      match scanFamilies member p1 p2 fs with
      | .error e => .error e
      | .ok none => .ok none
      | .ok (some fs2) => .ok (some (f :: fs2))

/-- One iteration of `get_members_as_families`'s row loop: skip rows
shorter than 12 cells, build the member (indexing `row[12]` first, then
`int()`, then the `"Last, First"` split) and the two parents, then merge
into the first matching family or append a fresh `Family`. -/
def processMemberRow (families : List Family) (row : List String) :
    Except RMError (List Family) :=
  if row.length < 12 then .ok families
  else
    match row.get? 12 with
    | none => .error .indexError
    | some ageCell =>
      match pyInt ageCell with
      | none => .error (.valueError "int")
      | some age =>
        match mkPersonFromLastFirst (row.getD 0 "") (row.getD 2 "")
            (row.getD 1 "") age "" "" (row.getD 3 "") (row.getD 4 "") with
        | .error e => .error e
        | .ok member =>
          let p1 := mkPerson (row.getD 5 "") (row.getD 6 "") (row.getD 7 "")
            "" 0 "" "" "" ""
          let p2 := mkPerson (row.getD 8 "") (row.getD 9 "") (row.getD 10 "")
            (row.getD 11 "") 0 "" "" "" ""
          match scanFamilies member p1 p2 families with
          | .error e => .error e
          | .ok (some fams2) => .ok fams2
          | .ok none => .ok (families ++ [mkFamily [p1, p2] [member]])

/-- The row loop of `get_members_as_families`. -/
def buildFamilies : List (List String) → List Family → Except RMError (List Family)
  | [], families => .ok families
  | row :: rows, families =>
    match processMemberRow families row with
    | .error e => .error e
    | .ok fams2 => buildFamilies rows fams2

/-- `get_members_as_families`: fold the rows, then sort every family. -/
def get_members_as_families (sheet : List (List String)) :
    Except RMError (List Family) :=
  match buildFamilies sheet [] with
  | .error e => .error e
  | .ok fams => .ok (fams.map Family.sortFam)

/-- `scanFamilies` as claim C3 reads the builder: the parent match is the
case-insensitive identity match. -/
def scanFamiliesCI (member p1 p2 : Person) :
    List Family → Except RMError (Option (List Family))
  | [] => .ok none
  | f :: fs =>
    if f.has_parent_ci p1.first_name p1.last_name ||
        f.has_parent_ci p2.first_name p2.last_name then
      match f.add_or_update_child member with
      | .error e => .error e
      | .ok f1 =>
        match f1.add_or_update_parent p1 with
        | .error e => .error e
        | .ok f2 =>
          match f2.add_or_update_parent p2 with
          | .error e => .error e
          | .ok f3 => .ok (some (f3 :: fs))
    else
      match scanFamiliesCI member p1 p2 fs with
      | .error e => .error e
      | .ok none => .ok none
      | .ok (some fs2) => .ok (some (f :: fs2))

/-- `processMemberRow` under claim C3's case-insensitive parent match. -/
def processMemberRowCI (families : List Family) (row : List String) :
    Except RMError (List Family) :=
  if row.length < 12 then .ok families
  else
    match row.get? 12 with
    | none => .error .indexError
    | some ageCell =>
      match pyInt ageCell with
      | none => .error (.valueError "int")
      | some age =>
        match mkPersonFromLastFirst (row.getD 0 "") (row.getD 2 "")
            (row.getD 1 "") age "" "" (row.getD 3 "") (row.getD 4 "") with
        | .error e => .error e
        | .ok member =>
          let p1 := mkPerson (row.getD 5 "") (row.getD 6 "") (row.getD 7 "")
            "" 0 "" "" "" ""
          let p2 := mkPerson (row.getD 8 "") (row.getD 9 "") (row.getD 10 "")
            (row.getD 11 "") 0 "" "" "" ""
          match scanFamiliesCI member p1 p2 families with
          | .error e => .error e
          | .ok (some fams2) => .ok fams2
          | .ok none => .ok (families ++ [mkFamily [p1, p2] [member]])

/-- The row loop of `get_members_as_families`, case-insensitive variant. -/
def buildFamiliesCI : List (List String) → List Family → Except RMError (List Family)
  | [], families => .ok families
  | row :: rows, families =>
    match processMemberRowCI families row with
    | .error e => .error e
    | .ok fams2 => buildFamiliesCI rows fams2

/-- `get_members_as_families` as claim C3 reads it (case-insensitive
parent matching). -/
def get_members_as_families_ci (sheet : List (List String)) :
    Except RMError (List Family) :=
  match buildFamiliesCI sheet [] with
  | .error e => .error e
  | .ok fams => .ok (fams.map Family.sortFam)

/-- One row of `get_adult_volunteers_as_people`'s comprehension:
`Person(last_name_first_name=row[0], email=row[1], role=row[2],
city=row[5].split(',')[0])`. -/
def mkVolunteer (row : List String) : Except RMError Person :=
  mkPersonFromLastFirst (row.getD 0 "") "" (row.getD 1 "") 0 "" (row.getD 2 "")
    "" (pySplitCommaHead (row.getD 5 ""))

/-- The comprehension's loop, with a raised `ValueError` propagating. -/
def volunteersFromRows : List (List String) → Except RMError (List Person)
  | [] => .ok []
  | row :: rows =>
    match mkVolunteer row with
    | .error e => .error e
    | .ok p =>
      match volunteersFromRows rows with
      | .error e => .error e
      | .ok ps => .ok (p :: ps)

/-- `get_adult_volunteers_as_people`: one `Person` per row longer than
five cells. -/
def get_adult_volunteers_as_people (sheet : List (List String)) :
    Except RMError (List Person) :=
  volunteersFromRows (sheet.filter (fun row => 5 < row.length))

/-- The inner `for family in families` loop of the volunteer-unification
pass: merge the adult into the first family with an exact parent-name
match; `none` when no family matches. -/
def unifyScan (adult : Person) : List Family → Except RMError (Option (List Family))
  | [] => .ok none
  | f :: fs =>
    if f.has_parent adult.first_name adult.last_name then
      match f.add_or_update_parent adult with
      | .error e => .error e
      | .ok f2 => .ok (some (f2 :: fs))
    else
      match unifyScan adult fs with
      | .error e => .error e
      | .ok none => .ok none
      | .ok (some fs2) => .ok (some (f :: fs2))

/-- The volunteer-unification loop of `get_families_from_ucnar_ods`:
merge each adult, or append a fresh single-parent family. -/
def unifyAdults : List Person → List Family → Except RMError (List Family)
  | [], families => .ok families
  | adult :: rest, families =>
    match unifyScan adult families with
    | .error e => .error e
    | .ok (some fams2) => unifyAdults rest fams2
    | .ok none => unifyAdults rest (families ++ [mkFamily [adult] []])

/-- `sheet.pop(0)`: the header row and the remaining rows;
`IndexError` on an empty sheet. -/
def popHeader (sheet : List (List String)) :
    Except RMError (List String × List (List String)) :=
  match sheet with
  | [] => .error .indexError
  | hd :: tl => .ok (hd, tl)

/-- `get_families_from_ucnar_ods`, taking the two decoded sheets
(`Members`, `Adult Volunteers`) in place of the workbook file. -/
def get_families_from_ucnar_ods (membersSheet adultsSheet : List (List String)) :
    Except RMError (List Family) :=
  match popHeader membersSheet with
  | .error e => .error e
  | .ok (_, memberRows) =>
    match popHeader adultsSheet with
    | .error e => .error e
    | .ok (_, adultRows) =>
      match get_members_as_families memberRows with
      | .error e => .error e
      | .ok families =>
        match get_adult_volunteers_as_people adultRows with
        | .error e => .error e
        | .ok adults => unifyAdults adults families

/-! ## Email dictionaries and list reconciliation
(rostermangler.py lines 243-252 and 285-307) -/

/-- A row of a sheet or CSV. -/
abbrev Row := List String

/-- A Python dict keyed by email, modelled as an association list in
insertion order with distinct keys maintained by `dictInsert`. -/
abbrev EmailDict := List (String × Row)

/-- Python dict assignment `d[k] = v`: replace in place, or append. -/
def dictInsert (d : EmailDict) (k : String) (v : Row) : EmailDict :=
  if d.any (fun kv => kv.1 == k) then
    d.map (fun kv => if kv.1 == k then (k, v) else kv)
  else d ++ [(k, v)]

/-- The dict comprehension `{row[1]: row for row in rows if row}`;
`row[1]` raises `IndexError` on a 1-cell row. -/
def buildEmailDict : List Row → EmailDict → Except RMError EmailDict
  | [], d => .ok d
  | row :: rows, d =>
    if row = [] then buildEmailDict rows d
    else
      match row.get? 1 with
      | none => .error .indexError
      | some e => buildEmailDict rows (dictInsert d e row)

/-- `get_members_and_volunteers_from_ucnar_ods`, taking the two decoded
sheets in place of the workbook file: pops both header rows but — exactly
as the source does — builds *both* email dicts from the Members rows. -/
def get_members_and_volunteers_from_ucnar_ods
    (membersSheet adultsSheet : List (List String)) :
    Except RMError (List String × EmailDict × List String × EmailDict) :=
  match popHeader membersSheet with
  | .error e => .error e
  | .ok (member_keys, members) =>
    match buildEmailDict members [] with
    | .error e => .error e
    | .ok members_email_dict =>
      match popHeader adultsSheet with
      | .error e => .error e
      | .ok (adult_keys, _) =>
        match buildEmailDict members [] with
        | .error e => .error e
        | .ok adults_email_dict =>
          .ok (member_keys, members_email_dict, adult_keys, adults_email_dict)

/-- The keys of an email dict, in insertion order. -/
def dictKeys (d : EmailDict) : List String := d.map Prod.fst

/-- `extra_in_mailchimp`: mailing-list rows whose key is in neither the
member nor the adult dict (the Python set union becomes list
concatenation, used only for membership). -/
def extra_in_mailchimp (mailchimp members adults : EmailDict) : List Row :=
  mailchimp.foldl
    (fun unknown er =>
      if (dictKeys members ++ dictKeys adults).contains er.1 then unknown
      else unknown ++ [er.2]) []

/-- `missing_from_mailchimp`: member rows, and separately adult rows,
whose key is absent from the mailing-list dict. -/
def missing_from_mailchimp (mailchimp members adults : EmailDict) :
    List Row × List Row :=
  (members.foldl
    (fun missing er =>
      if (dictKeys mailchimp).contains er.1 then missing
      else missing ++ [er.2]) [],
   adults.foldl
    (fun missing er =>
      if (dictKeys mailchimp).contains er.1 then missing
      else missing ++ [er.2]) [])

/-! ## Concrete inputs used by the claim theorems -/

/-- Both family lists sorted ascending by `(last_name, first_name)`. -/
def FamilySorted (f : Family) : Prop :=
  f.parents.Pairwise (fun p q => personLe p q = true) ∧
    f.children.Pairwise (fun p q => personLe p q = true)

/-- "Ann Smith" with a phone number and nothing else. -/
def pA : Person := ⟨"Ann", "Smith", "555-1234", "", 0, "", "", "", ""⟩

/-- "Ann Smith" with every updatable field empty. -/
def pB : Person := ⟨"Ann", "Smith", "", "", 0, "", "", "", ""⟩

/-- "Ann Smith" with a different phone number. -/
def pC : Person := ⟨"Ann", "Smith", "777", "", 0, "", "", "", ""⟩

/-- A Members row with exactly 12 cells: it passes the `len(row) < 12`
guard yet has no cell at index 12. -/
def rowTwelve : List String :=
  ["Smith, Jane", "a@b.c", "", "", "", "", "", "", "", "", "", ""]

/-- Two Members rows whose parent1 names agree only up to case:
"Alice Smith" vs "ALICE SMITH". -/
def sheetC3 : List (List String) :=
  [["Kidlast, Kidone", "", "", "", "", "Alice", "Smith", "", "", "", "", "", "7"],
   ["Kidlast, Kidtwo", "", "", "", "", "ALICE", "SMITH", "", "", "", "", "", "9"]]

/-- A family whose last-name set is {"axy", "x", "xy"}: "xy" is a suffix of
"axy" and "x" a prefix of "xy". -/
def famC4 : Family :=
  ⟨[], [⟨"A", "axy", "", "", 0, "", "", "", ""⟩,
        ⟨"B", "x", "", "", 0, "", "", "", ""⟩,
        ⟨"C", "xy", "", "", 0, "", "", "", ""⟩]⟩

/-- A family whose last-name set is {"Smith", "Smith-Jones"} (the spec's
worked example). -/
def famSmith : Family :=
  ⟨[], [⟨"Ann", "Smith", "", "", 0, "", "", "", ""⟩,
        ⟨"Bob", "Smith-Jones", "", "", 0, "", "", "", ""⟩]⟩

/-- Six members with phone multiset {"" ×2, "555" ×2, "666" ×2}: the empty
value ties for most common and occupies one of the two `most_common(2)`
slots. -/
def famC5 : Family :=
  ⟨[], [⟨"A", "Ln", "", "", 0, "", "", "", ""⟩,
        ⟨"B", "Ln", "", "", 0, "", "", "", ""⟩,
        ⟨"C", "Ln", "555", "", 0, "", "", "", ""⟩,
        ⟨"D", "Ln", "555", "", 0, "", "", "", ""⟩,
        ⟨"E", "Ln", "666", "", 0, "", "", "", ""⟩,
        ⟨"F", "Ln", "666", "", 0, "", "", "", ""⟩]⟩

/-- A Members sheet holding only its header row. -/
def msW : List (List String) := [["header"]]

/-- An Adult Volunteers sheet with its header and one volunteer row. -/
def asW : List (List String) :=
  [["header"],
   ["Zlast, Zed", "Z@Ex.com", "Leader", "x", "y", "Springfield, CA"]]

/-- The single one-parent family `get_families_from_ucnar_ods msW asW`
builds. -/
def famW : Family :=
  ⟨[⟨"Zed", "Zlast", "", "z@ex.com", 0, "", "Leader", "", "Springfield"⟩], []⟩

/-- Mailing-list dict of the reconciliation example: emails {b, c, d}. -/
def mcEx : EmailDict := [("b", ["b", "rb2"]), ("c", ["c", "rc2"]), ("d", ["d", "rd"])]

/-- Member dict of the reconciliation example: emails {a, b}. -/
def mEx : EmailDict := [("a", ["a", "ra"]), ("b", ["b", "rb"])]

/-- Adult dict of the reconciliation example: emails {c}. -/
def aEx : EmailDict := [("c", ["c", "rc"])]

/-- A Members sheet with a header and one two-cell row. -/
def msC10 : List (List String) := [["mk"], ["x", "m1@e.c"]]

/-- An Adult Volunteers sheet holding only its header row. -/
def asC10 : List (List String) := [["ak"]]

/-- The email dict built from `msC10`'s one row. -/
def dC10 : EmailDict := [("m1@e.c", ["x", "m1@e.c"])]

/-! ## Helper lemmas about the builder -/

/-- `Family.has_parent` is an exact, case-sensitive name comparison. -/
theorem has_parent_iff (f : Family) (fn ln : String) :
    f.has_parent fn ln = true ↔
      ∃ p ∈ f.parents, p.first_name = fn ∧ p.last_name = ln := by
  unfold Family.has_parent
  rw [List.any_eq_true]
  constructor
  · rintro ⟨p, hp, hb⟩
    rw [Bool.and_eq_true, beq_iff_eq, beq_iff_eq] at hb
    exact ⟨p, hp, hb.2, hb.1⟩
  · rintro ⟨p, hp, h1, h2⟩
    refine ⟨p, hp, ?_⟩
    rw [Bool.and_eq_true, beq_iff_eq, beq_iff_eq]
    exact ⟨h2, h1⟩

/-- Persons whose names agree exactly are an identity match. -/
theorem personEq_of_names {a b : Person} (h1 : b.first_name = a.first_name)
    (h2 : b.last_name = a.last_name) : personEq a b = true := by
  simp [personEq, h1, h2]

/-- When the group already holds an identity match, `_add_person`'s loop
updates in place, so the name keys of the group are unchanged. -/
theorem addToGroup_keys {newP : Person} {g g' : List Person}
    (hex : ∃ p ∈ g, personEq newP p = true)
    (h : addToGroup newP g = .ok g') : g'.map nameKey = g.map nameKey := by
  induction g generalizing g' with
  | nil =>
    rcases hex with ⟨p, hp, -⟩
    cases hp
  | cons q qs ih =>
    unfold addToGroup at h
    by_cases hq : personEq newP q = true
    · rw [if_pos hq] at h
      cases hu : q.update newP with
      | error e => rw [hu] at h; cases h
      | ok q2 =>
        rw [hu] at h
        cases h
        rcases update_ok_names hu with ⟨hf, hl, -⟩
        simp [nameKey, hf, hl]
    · rw [if_neg hq] at h
      rcases hex with ⟨p, hp, hpe⟩
      rcases List.mem_cons.mp hp with hp' | hp'
      · exact absurd (hp' ▸ hpe) hq
      · cases hr : addToGroup newP qs with
        | error e => rw [hr] at h; cases h
        | ok qs2 =>
          rw [hr] at h
          cases h
          simp [ih ⟨p, hp', hpe⟩ hr]

/-- Sortedness by `personLe` only depends on the name keys. -/
theorem pairwise_of_keys_eq {l l' : List Person}
    (hk : l'.map nameKey = l.map nameKey)
    (h : l.Pairwise (fun p q => personLe p q = true)) :
    l'.Pairwise (fun p q => personLe p q = true) := by
  have h2 : (l.map nameKey).Pairwise (fun x y => keyLe x y = true) :=
    List.pairwise_map.mpr h
  rw [← hk] at h2
  exact List.pairwise_map.mp h2

/-- Merging an adult into a family that `has_parent`-matches keeps both
lists sorted: the matched parent is updated in place. -/
theorem add_parent_sorted {f : Family} {adult : Person} {f' : Family}
    (hsort : FamilySorted f)
    (hmatch : f.has_parent adult.first_name adult.last_name = true)
    (h : f.add_or_update_parent adult = .ok f') : FamilySorted f' := by
  unfold Family.add_or_update_parent at h
  cases ha : addPerson f.parents adult with
  | error e => rw [ha] at h; cases h
  | ok ps =>
    rw [ha] at h
    cases h
    unfold addPerson at ha
    by_cases hv : adult.valid = true
    · rw [if_pos hv] at ha
      rcases (has_parent_iff f adult.first_name adult.last_name).mp hmatch with
        ⟨p, hp, h1, h2⟩
      have hkeys := addToGroup_keys ⟨p, hp, personEq_of_names h1 h2⟩ ha
      exact ⟨pairwise_of_keys_eq hkeys hsort.1, hsort.2⟩
    · rw [if_neg hv] at ha
      cases ha
      exact hsort

/-- A family freshly built from a single parent is sorted. -/
theorem single_parent_family_sorted (p : Person) :
    FamilySorted (mkFamily [p] []) := by
  constructor
  · by_cases hv : p.valid = true
    · simp [mkFamily, hv]
    · simp [mkFamily, hv]
  · simp [mkFamily]

/-- The volunteer-unification scan preserves sortedness of every family. -/
theorem unifyScan_sorted {adult : Person} :
    ∀ {families fams' : List Family},
      (∀ f ∈ families, FamilySorted f) →
      unifyScan adult families = .ok (some fams') →
      ∀ f ∈ fams', FamilySorted f := by
  intro families
  induction families with
  | nil => intro fams' _ h; cases h
  | cons f fs ih =>
    intro fams' hall h
    unfold unifyScan at h
    by_cases hm : f.has_parent adult.first_name adult.last_name = true
    · rw [if_pos hm] at h
      cases ha : f.add_or_update_parent adult with
      | error e => rw [ha] at h; cases h
      | ok f2 =>
        rw [ha] at h
        cases h
        intro g hg
        rcases List.mem_cons.mp hg with hg' | hg'
        · exact hg' ▸ add_parent_sorted (hall f (List.mem_cons_self f fs)) hm ha
        · exact hall g (List.mem_cons_of_mem f hg')
    · rw [if_neg hm] at h
      cases hr : unifyScan adult fs with
      | error e => rw [hr] at h; cases h
      | ok o =>
        rw [hr] at h
        cases o with
        | none => cases h
        | some fs2 =>
          cases h
          intro g hg
          rcases List.mem_cons.mp hg with hg' | hg'
          · exact hg' ▸ hall f (List.mem_cons_self f fs)
          · exact ih (fun g' hg' => hall g' (List.mem_cons_of_mem f hg')) hr g hg'

/-- The volunteer-unification loop preserves sortedness of every family. -/
theorem unifyAdults_sorted :
    ∀ (adults : List Person) {families fams' : List Family},
      (∀ f ∈ families, FamilySorted f) →
      unifyAdults adults families = .ok fams' →
      ∀ f ∈ fams', FamilySorted f := by
  intro adults
  induction adults with
  | nil =>
    intro families fams' hall h
    cases h
    exact hall
  | cons adult rest ih =>
    intro families fams' hall h
    unfold unifyAdults at h
    cases hs : unifyScan adult families with
    | error e => rw [hs] at h; cases h
    | ok o =>
      rw [hs] at h
      cases o with
      | some fams2 => exact ih (unifyScan_sorted hall hs) h
      | none =>
        refine ih ?_ h
        intro g hg
        rcases List.mem_append.mp hg with hg' | hg'
        · exact hall g hg'
        · rcases List.mem_singleton.mp hg' with rfl
          exact single_parent_family_sorted adult

/-- `Family.sort` sorts both lists. -/
theorem sortFam_sorted (f : Family) : FamilySorted f.sortFam :=
  ⟨pairwise_sortBy personLe personLe_total (fun _ _ _ => personLe_trans) f.parents,
   pairwise_sortBy personLe personLe_total (fun _ _ _ => personLe_trans) f.children⟩

/-- Every family `get_members_as_families` returns is sorted. -/
theorem get_members_as_families_sorted {sheet : List (List String)}
    {fams : List Family} (h : get_members_as_families sheet = .ok fams) :
    ∀ f ∈ fams, FamilySorted f := by
  unfold get_members_as_families at h
  cases hb : buildFamilies sheet [] with
  | error e => rw [hb] at h; cases h
  | ok fams0 =>
    rw [hb] at h
    cases h
    intro f hf
    rcases List.mem_map.mp hf with ⟨g, -, rfl⟩
    exact sortFam_sorted g

/-! ## The claim theorems -/

/-- C1: `Person.update` raises a `FieldConflict`-style `ValueError` naming
the field exactly when both sides hold different non-empty values — but in
the no-conflict case the *other* side's value always wins, so a non-empty
field of the receiver IS replaced by an empty incoming field: merging the
all-empty "Ann Smith" `pB` into `pA` (phone `"555-1234"`) erases the phone.
This contradicts the claim's "the non-empty side wins". -/
theorem claim1_update_attr_eval :
    pA.update pC = .error (.fieldConflict "phone" "555-1234" "777") ∧
      (pA.update pB).map Person.phone = .ok "" ∧
      pA.phone = "555-1234" ∧ pB.phone = "" :=
  ⟨rfl, rfl, rfl, rfl⟩

/-- C6: merging in the two orders does not agree on the resulting field
set, even for valid identically-named persons with disjoint non-conflicting
fields: with `pA.phone = "555-1234"` and `pB` all-empty,
`pA.update pB` ends with phone `""` while `pB.update pA` ends with phone
`"555-1234"`. -/
theorem claim6_update_not_commutative :
    (pA.update pB).map Person.phone = .ok "" ∧
      (pB.update pA).map Person.phone = .ok "555-1234" ∧
      pA.valid = true ∧ pB.valid = true ∧ personEq pA pB = true :=
  ⟨rfl, rfl, by decide, by decide, by decide⟩

/-- C8: `Family.family_address` is the (address, city) pair of the first
child when the family has children, and the 1-tuple of the first parent's
city when it has none. -/
theorem claim8_family_address (f : Family) :
    (∀ c cs, f.children = c :: cs →
      f.family_address = some (.pair c.address c.city)) ∧
    (f.children = [] → ∀ p ps, f.parents = p :: ps →
      f.family_address = some (.single p.city)) := by
  constructor
  · intro c cs hc
    unfold Family.family_address
    rw [hc]
  · intro hc p ps hp
    unfold Family.family_address
    rw [hc, hp]

/-- C9: every family in the list `get_families_from_ucnar_ods` hands to the
renderer — the member-pass families and the ones created or updated by the
volunteer-unification pass alike — has its parent list and its child list
sorted ascending by `(last_name, first_name)`. -/
theorem claim9_families_sorted (membersSheet adultsSheet : List (List String))
    (fams : List Family)
    (h : get_families_from_ucnar_ods membersSheet adultsSheet = .ok fams) :
    ∀ f ∈ fams,
      f.parents.Pairwise (fun p q => personLe p q = true) ∧
        f.children.Pairwise (fun p q => personLe p q = true) := by
  unfold get_families_from_ucnar_ods at h
  cases h1 : popHeader membersSheet with
  | error e => rw [h1] at h; cases h
  | ok kr =>
    rw [h1] at h
    obtain ⟨mKeys, memberRows⟩ := kr
    simp only [] at h
    cases h2 : popHeader adultsSheet with
    | error e => rw [h2] at h; cases h
    | ok kr2 =>
      rw [h2] at h
      obtain ⟨aKeys, adultRows⟩ := kr2
      simp only [] at h
      cases h3 : get_members_as_families memberRows with
      | error e => rw [h3] at h; cases h
      | ok families =>
        rw [h3] at h
        cases h4 : get_adult_volunteers_as_people adultRows with
        | error e => rw [h4] at h; cases h
        | ok adults =>
          rw [h4] at h
          exact unifyAdults_sorted adults (get_members_as_families_sorted h3) h

/-- C9 witness: on a header-only Members sheet and one volunteer row the
run returns exactly `[famW]`, whose two lists are sorted. -/
theorem claim9_witness :
    famW.parents.Pairwise (fun p q => personLe p q = true) ∧
      famW.children.Pairwise (fun p q => personLe p q = true) :=
  claim9_families_sorted msW asW [famW] (by rfl) famW (List.mem_singleton.mpr rfl)

/-- C10: whatever the two sheets hold, `get_members_and_volunteers_from_ucnar_ods`
builds both email dictionaries from the Members rows, so the returned
adults dictionary equals the returned members dictionary. -/
theorem claim10_adults_dict_is_members_dict
    (membersSheet adultsSheet : List (List String))
    (mk : List String) (md : EmailDict) (ak : List String) (ad : EmailDict)
    (h : get_members_and_volunteers_from_ucnar_ods membersSheet adultsSheet =
      .ok (mk, md, ak, ad)) : ad = md := by
  unfold get_members_and_volunteers_from_ucnar_ods at h
  cases h1 : popHeader membersSheet with
  | error e => rw [h1] at h; cases h
  | ok kr =>
    rw [h1] at h
    obtain ⟨k, rows⟩ := kr
    simp only [] at h
    cases h2 : buildEmailDict rows [] with
    | error e => rw [h2] at h; cases h
    | ok d1 =>
      rw [h2] at h
      cases h3 : popHeader adultsSheet with
      | error e => rw [h3] at h; cases h
      | ok kr2 =>
        rw [h3] at h
        obtain ⟨k2, rows2⟩ := kr2
        simp only [] at h
        rw [Except.ok.injEq] at h
        obtain ⟨-, -, -, -⟩ := h
        rfl

/-- C10 witness: on a one-row Members sheet and a header-only Adult
Volunteers sheet, the returned adults dictionary is the members
dictionary `dC10`. -/
theorem claim10_witness : dC10 = dC10 :=
  claim10_adults_dict_is_members_dict msC10 asC10 ["mk"] dC10 ["ak"] dC10 (by rfl)

/-- The row loop leaves the family list untouched when every row is
shorter than 12 cells. -/
theorem buildFamilies_short (sheet : List (List String))
    (h : ∀ row ∈ sheet, row.length < 12) :
    ∀ fams, buildFamilies sheet fams = .ok fams := by
  induction sheet with
  | nil => intro fams; rfl
  | cons row rows ih =>
    intro fams
    unfold buildFamilies processMemberRow
    rw [if_pos (h row (List.mem_cons_self row rows))]
    exact ih (fun r hr => h r (List.mem_cons_of_mem row hr)) fams

/-- C2 counterexample: the claim says a malformed row never lets an
exception propagate out of the builder, yet a row with exactly 12 cells
passes the `len(row) < 12` guard and `row[12]` raises `IndexError`, which
propagates. -/
theorem claim2_counterexample :
    rowTwelve.length = 12 ∧
      get_members_as_families [rowTwelve] = .error .indexError :=
  ⟨rfl, rfl⟩

/-- C2 amended: rows shorter than 12 cells are silently skipped and a
sheet of only such rows yields no family and no error; but a row of
exactly 12 cells raises `IndexError` at `row[12]`, and a longer row whose
age cell `int()` cannot parse raises `ValueError` — both propagate out of
the builder. -/
theorem claim2_amended :
    (∀ sheet : List (List String), (∀ row ∈ sheet, row.length < 12) →
      get_members_as_families sheet = .ok []) ∧
    (∀ (families : List Family) (row : List String), row.length = 12 →
      processMemberRow families row = .error .indexError) ∧
    (∀ (families : List Family) (row : List String) (cell : String),
      row.get? 12 = some cell → pyInt cell = none →
      processMemberRow families row = .error (.valueError "int")) := by
  refine ⟨?_, ?_, ?_⟩
  · intro sheet h
    unfold get_members_as_families
    rw [buildFamilies_short sheet h []]
    rfl
  · intro families row hlen
    unfold processMemberRow
    rw [if_neg (by omega), List.get?_eq_none.mpr (by omega)]
  · intro families row cell hget hint
    have hlt : 12 < row.length := (List.get?_eq_some.mp hget).1
    unfold processMemberRow
    rw [if_neg (by omega)]
    simp only [hget, hint]

/-- C3 counterexample: on `sheetC3` the second row's parent1
"ALICE SMITH" matches the first family's parent "Alice Smith"
case-insensitively (third conjunct), yet the code starts a second family
(first conjunct) where the claim's case-insensitive merge rule would have
produced one (second conjunct, the claim's reading of the builder). -/
theorem claim3_counterexample :
    (get_members_as_families sheetC3).map List.length = .ok 2 ∧
      (get_members_as_families_ci sheetC3).map List.length = .ok 1 ∧
      (get_members_as_families sheetC3).map
        (fun fams => (fams.headD ⟨[], []⟩).has_parent_ci "ALICE" "SMITH") =
        .ok true :=
  ⟨rfl, rfl, rfl⟩

/-- C3 amended: an incoming triple is merged into an existing family iff
some already-built family (scanned in insertion order) has a parent whose
first and last name equal parent1's or parent2's *exactly,
case-sensitively* (`has_parent`); when no family matches exactly, a new
family is created — even when a family holds a case-insensitively
matching parent. -/
theorem claim3_amended :
    (∀ (f : Family) (fn ln : String), f.has_parent fn ln = true ↔
      ∃ p ∈ f.parents, p.first_name = fn ∧ p.last_name = ln) ∧
    (∀ (member p1 p2 : Person) (families : List Family)
      (r : Option (List Family)),
      scanFamilies member p1 p2 families = .ok r →
      (r = none ↔ ∀ f ∈ families,
        f.has_parent p1.first_name p1.last_name = false ∧
        f.has_parent p2.first_name p2.last_name = false)) := by
  refine ⟨has_parent_iff, ?_⟩
  intro member p1 p2 families
  induction families with
  | nil =>
    intro r h
    cases h
    simp
  | cons f fs ih =>
    intro r h
    unfold scanFamilies at h
    by_cases hc : (f.has_parent p1.first_name p1.last_name ||
        f.has_parent p2.first_name p2.last_name) = true
    · rw [if_pos hc] at h
      cases ha : f.add_or_update_child member with
      | error e => rw [ha] at h; cases h
      | ok f1 =>
        rw [ha] at h
        simp only [] at h
        cases hb : f1.add_or_update_parent p1 with
        | error e => rw [hb] at h; cases h
        | ok f2 =>
          rw [hb] at h
          simp only [] at h
          cases hcc : f2.add_or_update_parent p2 with
          | error e => rw [hcc] at h; cases h
          | ok f3 =>
            rw [hcc] at h
            cases h
            constructor
            · intro hnone
              cases hnone
            · intro hall
              exfalso
              rcases hall f (List.mem_cons_self f fs) with ⟨ha1, ha2⟩
              simp only [Bool.or_eq_true] at hc
              rcases hc with h1 | h1
              · rw [ha1] at h1; cases h1
              · rw [ha2] at h1; cases h1
    · rw [if_neg hc] at h
      cases hr : scanFamilies member p1 p2 fs with
      | error e => rw [hr] at h; cases h
      | ok o =>
        rw [hr] at h
        cases o with
        | none =>
          cases h
          constructor
          · intro _ f' hf'
            rcases List.mem_cons.mp hf' with hf'' | hf''
            · subst hf''
              simp only [Bool.or_eq_true, not_or, Bool.not_eq_true] at hc
              exact hc
            · exact (ih none hr).mp rfl f' hf''
          · intro _
            rfl
        | some fs2 =>
          cases h
          constructor
          · intro hnone
            cases hnone
          · intro hall
            have h2 := (ih (some fs2) hr).mpr
              (fun f' hf' => hall f' (List.mem_cons_of_mem f hf'))
            cases h2

/-- C4 counterexample: on the last-name set {"axy", "x", "xy"} the code's
`family_name` loop returns the *outer* name "axy" (the containing name),
while the claim's reading — return the second name `b` of the first pair
`(a, b)` with `a` contained in `b` — would return "xy". -/
theorem claim4_counterexample :
    famC4.family_name = "axy family" ∧
      famC4.family_name_claim = "xy family" ∧
      ("axy family" : String) ≠ "xy family" :=
  ⟨rfl, rfl, by decide⟩

/-- C4 amended: `family_name` scans the sorted distinct last names with
the *containing* name as the outer loop variable: it returns
`a ++ " family"` for the lexicographically smallest name `a` that has some
other name of the set as a prefix or suffix; when no name contains
another it returns the sorted names joined by `" and "`, plus
`" family"`.  {"Smith", "Smith-Jones"} still yields
"Smith-Jones family". -/
theorem claim4_amended :
    (∀ (f : Family) (a : String), a ∈ f.lastNamesSorted →
      hasContained f.lastNamesSorted a = true →
      (∀ b ∈ f.lastNamesSorted, hasContained f.lastNamesSorted b = true →
        strLe a b = true) →
      f.family_name = a ++ " family") ∧
    (∀ f : Family,
      (∀ a ∈ f.lastNamesSorted, hasContained f.lastNamesSorted a = false) →
      f.family_name = pyJoin " and " f.lastNamesSorted ++ " family") ∧
    famSmith.family_name = "Smith-Jones family" := by
  refine ⟨?_, ?_, rfl⟩
  · intro f a ha hca hmin
    unfold Family.family_name
    cases hf : f.lastNamesSorted.find? (hasContained f.lastNamesSorted) with
    | none =>
      have := List.find?_eq_none.mp hf a ha
      exact absurd hca this
    | some a' =>
      have hsorted : f.lastNamesSorted.Pairwise (fun x y => strLe x y = true) :=
        pairwise_sortBy strLe strLe_total (fun _ _ _ => strLe_trans) _
      rcases find?_sorted_min strLe (hasContained f.lastNamesSorted) strLe_refl
        _ hsorted a' hf with ⟨hpa', hmin'⟩
      have h1 : strLe a' a = true := hmin' a ha hca
      have h2 : strLe a a' = true :=
        hmin a' (List.mem_of_find?_eq_some hf) hpa'
      rw [strLe_antisymm h2 h1]
  · intro f hnone
    unfold Family.family_name
    rw [List.find?_eq_none.mpr (fun a ha => by simp [hnone a ha])]

/-- C5 counterexample: in `famC5` the phones are {"" ×2, "555" ×2,
"666" ×2}; the code truncates to the top two counter entries *before*
filtering, so the twice-occurring empty value evicts "666" and
`family_phone` is `["555"]`, while the claim's filter-then-truncate
reading yields `["555", "666"]`. -/
theorem claim5_counterexample :
    famC5.family_phone = ["555"] ∧
      famC5.family_phone_claim = ["555", "666"] ∧
      famC5.family_phone ≠ famC5.family_phone_claim :=
  ⟨rfl, rfl, by decide⟩

/-- Soundness of the `most_common(2)`-then-filter pipeline: at most two
values, each non-empty and occurring more than once. -/
theorem commonTwo_sound (l : List String) :
    (commonTwo l).length ≤ 2 ∧
      ∀ v ∈ commonTwo l, v ≠ "" ∧ 1 < l.count v := by
  constructor
  · have h1 : (commonTwo l).length ≤ (mostCommon2 l).length :=
      List.length_filterMap_le _ _
    have h2 : (mostCommon2 l).length ≤ 2 := List.length_take_le _ _
    omega
  · intro v hv
    unfold commonTwo at hv
    rcases List.mem_filterMap.mp hv with ⟨vc, hvc, hsome⟩
    by_cases hcond : 1 < vc.2 ∧ vc.1 ≠ ""
    · rw [if_pos hcond] at hsome
      cases hsome
      have hmem : vc ∈ counterItems l := by
        have hs := List.take_subset 2 (sortBy countGe (counterItems l)) hvc
        exact (mem_sortBy countGe (counterItems l) vc).mp hs
      rcases List.mem_map.mp hmem with ⟨w, -, hvw⟩
      refine ⟨hcond.2, ?_⟩
      have hcount : vc.2 = l.count vc.1 := by rw [← hvw]
      rw [← hcount]
      exact hcond.1
    · rw [if_neg hcond] at hsome
      cases hsome

/-- C5 amended: `family_phone` (and likewise `family_email`) takes the two
most frequent values — the empty value included — by descending count with
first-encountered tie-break, and only then keeps the non-empty ones
occurring more than once.  Hence every returned value is non-empty and
repeated, and at most two are returned; but a frequent empty value (or a
third equally frequent value) can evict a qualifying value, so the result
is not always the full set of repeated non-empty values. -/
theorem claim5_amended (f : Family) :
    ((f.family_phone.length ≤ 2) ∧ ∀ v ∈ f.family_phone, v ≠ "" ∧
      1 < ((f.parents ++ f.children).map Person.phone).count v) ∧
    ((f.family_email.length ≤ 2) ∧ ∀ v ∈ f.family_email, v ≠ "" ∧
      1 < ((f.parents ++ f.children).map Person.email).count v) :=
  ⟨commonTwo_sound _, commonTwo_sound _⟩

/-- A skip-or-append fold is a `filterMap`. -/
theorem foldl_skip_append {α β : Type} (p : α → Bool) (g : α → β)
    (l : List α) (acc : List β) :
    l.foldl (fun a x => if p x then a else a ++ [g x]) acc =
      acc ++ l.filterMap (fun x => if p x then none else some (g x)) := by
  induction l generalizing acc with
  | nil => simp
  | cons x xs ih =>
    by_cases hp : p x = true
    · simp [hp, ih]
    · simp [hp, ih]

/-- C7: `extra_in_mailchimp` returns exactly the mailing-list rows whose
email key is in neither the member nor the adult dictionary, and
`missing_from_mailchimp` returns the member rows and, as a second
sequence, the adult rows whose key is absent from the mailing-list
dictionary; on the worked example (members {a, b}, adults {c},
mailing-list {b, c, d}) the extras are `[row d]` and the missing pair is
`([row a], [])`. -/
theorem claim7_reconciliation :
    (∀ mc m a : EmailDict,
      extra_in_mailchimp mc m a =
        mc.filterMap (fun er =>
          if er.1 ∈ dictKeys m ∨ er.1 ∈ dictKeys a then none else some er.2) ∧
      missing_from_mailchimp mc m a =
        (m.filterMap (fun er =>
          if er.1 ∈ dictKeys mc then none else some er.2),
         a.filterMap (fun er =>
          if er.1 ∈ dictKeys mc then none else some er.2))) ∧
    extra_in_mailchimp mcEx mEx aEx = [["d", "rd"]] ∧
    missing_from_mailchimp mcEx mEx aEx = ([["a", "ra"]], []) := by
  refine ⟨?_, rfl, rfl⟩
  intro mc m a
  constructor
  · unfold extra_in_mailchimp
    rw [foldl_skip_append]
    rw [List.nil_append]
    apply List.filterMap_congr
    intro er _
    by_cases hmem : er.1 ∈ dictKeys m ∨ er.1 ∈ dictKeys a
    · rw [if_pos (List.elem_iff.mpr (List.mem_append.mpr hmem)), if_pos hmem]
    · rw [if_neg (fun hc => hmem (List.mem_append.mp (List.elem_iff.mp hc))),
        if_neg hmem]
  · unfold missing_from_mailchimp
    rw [foldl_skip_append, foldl_skip_append, List.nil_append, List.nil_append,
      Prod.mk.injEq]
    constructor
    · apply List.filterMap_congr
      intro er _
      by_cases hmem : er.1 ∈ dictKeys mc
      · rw [if_pos (List.elem_iff.mpr hmem), if_pos hmem]
      · rw [if_neg (fun hc => hmem (List.elem_iff.mp hc)), if_neg hmem]
    · apply List.filterMap_congr
      intro er _
      by_cases hmem : er.1 ∈ dictKeys mc
      · rw [if_pos (List.elem_iff.mpr hmem), if_pos hmem]
      · rw [if_neg (fun hc => hmem (List.elem_iff.mp hc)), if_neg hmem]

end RosterMangler
